import Mathlib

/-
Verification development for ol/render/Feature.js (RenderFeature): a shallow
embedding of the flat-coordinate feature facade with its lazy derived-geometry
cache, and theorems about extent computation, caching, per-ring midpoints,
the affine tile-pixel to world transform, and property lookup.

Coordinates are modelled as rationals (exact arithmetic); the coordinate
buffer is a flat list read as (x, y) pairs at stride 2, exactly as in the
source. The external flat-geometry engines imported by the source but not
part of the sources here (interior points, interpolation, ring centers) are
abstract parameters: the facade treats their results opaquely, so every
theorem holds for an arbitrary implementation of them.
-/

namespace OLRF

/-- Geometry type tag, the closed enumeration from ol/geom/GeometryType.js. -/
inductive GeometryType where
  | POINT
  | LINE_STRING
  | LINEAR_RING
  | POLYGON
  | MULTI_POINT
  | MULTI_LINE_STRING
  | MULTI_POLYGON
  | GEOMETRY_COLLECTION
  | CIRCLE
  deriving DecidableEq, Repr

/-- Ends descriptor: either a flat sequence of exclusive end offsets into the
coordinate buffer (lines and polygons with holes), or a nested sequence of such
sequences (multi-polygons). The shape is determined by the geometry type and is
an external invariant the source respects but does not enforce. -/
inductive EndsDesc where
  | flat (ends : List ℕ)
  | nested (endss : List (List ℕ))
  deriving DecidableEq, Repr

/-- Coordinate pairs of a flat buffer, read at stride 2. A trailing odd element
has no pair partner (an even count is a data-model invariant) and is dropped. -/
def coordPairs : List ℚ → List (ℚ × ℚ)
  | x :: y :: rest => (x, y) :: coordPairs rest
  | _ => []

/-- Slice [offset, endI) of a flat buffer. -/
def bufSlice (l : List ℚ) (offset endI : ℕ) : List ℚ :=
  (l.take endI).drop offset

/-- Modelled from the spec: `createOrUpdateFromCoordinate` of ol/extent.js is not
among the sources; per the spec a Point extent degenerates to a zero-area box at
the single coordinate pair. -/
def createOrUpdateFromCoordinate (coordinate : List ℚ) : List ℚ :=
  [coordinate.getD 0 0, coordinate.getD 1 0, coordinate.getD 0 0, coordinate.getD 1 0]

/-- Accumulator step of the extent scan: extend a running
(minX, minY, maxX, maxY) by one coordinate pair. -/
def extendPair (acc : ℚ × ℚ × ℚ × ℚ) (p : ℚ × ℚ) : ℚ × ℚ × ℚ × ℚ :=
  (min acc.1 p.1, min acc.2.1 p.2, max acc.2.2.1 p.1, max acc.2.2.2 p.2)

/-- Modelled from the spec: `createOrUpdateFromFlatCoordinates` of ol/extent.js is
not among the sources; per the spec it scans the coordinate buffer at stride 2,
tracking running min and max of x and y independently (the stride argument is
fixed at 2 here). An empty buffer is undefined upstream; the model returns the
empty list for it. -/
def createOrUpdateFromFlatCoordinates (coords : List ℚ) (offset endI _stride : ℕ) : List ℚ :=
  match coordPairs (bufSlice coords offset endI) with
  | [] => []
  | p :: rest =>
    let r := rest.foldl extendPair (p.1, p.2, p.1, p.2)
    [r.1, r.2.1, r.2.2.1, r.2.2.2]

/-- Modelled from the spec: `getCenter` of ol/extent.js is not among the sources;
the seed center is the midpoint of the extent. -/
def getCenter (extent : List ℚ) : List ℚ :=
  [(extent.getD 0 0 + extent.getD 2 0) / 2, (extent.getD 1 0 + extent.getD 3 0) / 2]

/-- Modelled from the spec: `getHeight` of ol/extent.js is not among the sources;
an extent is [minX, minY, maxX, maxY] and its height is maxY - minY. -/
def getHeight (extent : List ℚ) : ℚ :=
  extent.getD 3 0 - extent.getD 1 0

/-- Modelled from the spec: `compose` of ol/transform.js is not among the sources;
it builds the 6-parameter affine transform translate(dx1, dy1) then rotate(angle)
then scale(sx, sy) then translate(dx2, dy2). The spec fixes rotation = 0 for this
system, which the model hard-codes, giving the column-major matrix
[sx, 0, 0, sy, sx*dx2 + dx1, sy*dy2 + dy1]. -/
def composeTransform (dx1 dy1 sx sy dx2 dy2 : ℚ) : List ℚ :=
  [sx, 0, 0, sy, sx * dx2 + dx1, sy * dy2 + dy1]

/-- Application of a 6-parameter affine transform [a, b, c, d, e, f] to one
(x, y) pair: (a*x + c*y + e, b*x + d*y + f). -/
def applyAffine (t : List ℚ) (p : ℚ × ℚ) : ℚ × ℚ :=
  (t.getD 0 0 * p.1 + t.getD 2 0 * p.2 + t.getD 4 0,
   t.getD 1 0 * p.1 + t.getD 3 0 * p.2 + t.getD 5 0)

/-- Modelled from the spec: `transform2D` of ol/geom/flat/transform.js is not among
the sources; per the spec it applies the affine transform to every coordinate pair
of the buffer at stride 2, overwriting the buffer (modelled functionally). -/
def transform2D (coords : List ℚ) (offset endI _stride : ℕ) (t : List ℚ) : List ℚ :=
  ((coordPairs (bufSlice coords offset endI)).map
    (fun p => [(applyAffine t p).1, (applyAffine t p).2])).flatten

/-- Projection resolved from the registry: exposes the pixel extent (getExtent)
and the world extent (getWorldExtent), the only two fields the transform uses. -/
structure Projection where
  extent : List ℚ
  worldExtent : List ℚ
  deriving DecidableEq, Repr

/-- External flat-geometry engines imported by ol/render/Feature.js but not among
the sources (ol/geom/flat/interpolate.js, interiorpoint.js, center.js). The facade
treats their results opaquely, so they are abstract parameters of the development:
theorems about the facade hold for an arbitrary implementation. -/
structure Engines where
  interpolatePoint : List ℚ → ℕ → ℕ → ℕ → ℚ → List ℚ
  getInteriorPointOfArray : List ℚ → ℕ → EndsDesc → ℕ → List ℚ → ℕ → List ℚ
  getInteriorPointsOfMultiArray : List ℚ → ℕ → EndsDesc → ℕ → List ℚ → List ℚ
  linearRingssCenter : List ℚ → ℕ → EndsDesc → ℕ → List ℚ

/-- The RenderFeature state: geometry type, flat coordinate buffer, ends
descriptor, property mapping, optional id, and the three lazily populated
derived-geometry cache slots (unset = none). The property value type is a
parameter, values being opaque to the facade. -/
structure RenderFeature (V : Type) where
  type_ : GeometryType
  flatCoordinates_ : List ℚ
  ends_ : EndsDesc
  properties_ : List (String × V)
  id_ : Option (ℚ ⊕ String)
  extent_ : Option (List ℚ)
  flatInteriorPoints_ : Option (List ℚ)
  flatMidpoints_ : Option (List ℚ)
  deriving DecidableEq

variable {V : Type}

/-- The RenderFeature constructor: stores the supplied fields and leaves every
derived-geometry cache slot unset. -/
def mkRenderFeature (type : GeometryType) (flatCoordinates : List ℚ) (ends : EndsDesc)
    (properties : List (String × V)) (id : Option (ℚ ⊕ String)) : RenderFeature V :=
  ⟨type, flatCoordinates, ends, properties, id, none, none, none⟩

/-- Property lookup by key: the value stored under the key, or none when the key
is absent (the JS read of a missing object key yields undefined). -/
def RenderFeature.get (f : RenderFeature V) (key : String) : Option V :=
  f.properties_.lookup key

/-- Extent accessor: returns the cached extent when set; otherwise computes it
(point box for POINT, full-buffer min/max scan otherwise), stores it in the
cache slot and returns it. -/
def RenderFeature.getExtent (f : RenderFeature V) : List ℚ × RenderFeature V :=
  match f.extent_ with
  | some e => (e, f)
  | none =>
    let e :=
      if f.type_ = GeometryType.POINT then
        createOrUpdateFromCoordinate f.flatCoordinates_
      else
        createOrUpdateFromFlatCoordinates f.flatCoordinates_ 0 f.flatCoordinates_.length 2
    (e, { f with extent_ := some e })

/-- Single-polygon interior point accessor: on a cache miss it first obtains the
extent (populating the extent cache slot), seeds the engine with the extent
center, stores and returns the engine's result. -/
def RenderFeature.getFlatInteriorPoint (E : Engines) (f : RenderFeature V) :
    List ℚ × RenderFeature V :=
  match f.flatInteriorPoints_ with
  | some v => (v, f)
  | none =>
    let r := f.getExtent
    let flatCenter := getCenter r.1
    let v := E.getInteriorPointOfArray r.2.flatCoordinates_ 0 r.2.ends_ 2 flatCenter 0
    (v, { r.2 with flatInteriorPoints_ := some v })

/-- Multi-polygon interior points accessor: on a cache miss it seeds the engine
with the per-polygon ring centers, stores and returns the engine's result. It
shares the flatInteriorPoints_ cache slot with getFlatInteriorPoint. -/
def RenderFeature.getFlatInteriorPoints (E : Engines) (f : RenderFeature V) :
    List ℚ × RenderFeature V :=
  match f.flatInteriorPoints_ with
  | some v => (v, f)
  | none =>
    let flatCenters := E.linearRingssCenter f.flatCoordinates_ 0 f.ends_ 2
    let v := E.getInteriorPointsOfMultiArray f.flatCoordinates_ 0 f.ends_ 2 flatCenters
    (v, { f with flatInteriorPoints_ := some v })

/-- Whole-buffer midpoint accessor: on a cache miss it interpolates the
fraction-0.5 point over the entire buffer, stores and returns it. -/
def RenderFeature.getFlatMidpoint (E : Engines) (f : RenderFeature V) :
    List ℚ × RenderFeature V :=
  match f.flatMidpoints_ with
  | some v => (v, f)
  | none =>
    let v := E.interpolatePoint f.flatCoordinates_ 0 f.flatCoordinates_.length 2 (1 / 2)
    (v, { f with flatMidpoints_ := some v })

/-- Loop of getFlatMidpoints: walk the flat ends in order, interpolating the
fraction-0.5 point on each [offset, end) slice and appending the results, the
offset advancing to the previous end after each ring. -/
def flatMidpointsLoop (E : Engines) (flatCoordinates : List ℚ) :
    ℕ → List ℕ → List ℚ
  | _, [] => []
  | offset, e :: rest =>
    E.interpolatePoint flatCoordinates offset e 2 (1 / 2) ++
      flatMidpointsLoop E flatCoordinates e rest

/-- Per-ring midpoints accessor: on a cache miss it runs the per-ring
interpolation loop over the flat ends, stores and returns the concatenated
result. It shares the flatMidpoints_ cache slot with getFlatMidpoint. A nested
ends descriptor here is a shape mismatch that is undefined upstream (decoder
contract); the model stores the empty list for it. -/
def RenderFeature.getFlatMidpoints (E : Engines) (f : RenderFeature V) :
    List ℚ × RenderFeature V :=
  match f.flatMidpoints_ with
  | some v => (v, f)
  | none =>
    let v :=
      match f.ends_ with
      | EndsDesc.flat ends => flatMidpointsLoop E f.flatCoordinates_ 0 ends
      | EndsDesc.nested _ => []
    (v, { f with flatMidpoints_ := some v })

/-- Identifier accessor: plain field read. -/
def RenderFeature.getId (f : RenderFeature V) : Option (ℚ ⊕ String) :=
  f.id_

/-- Oriented flat coordinates accessor: plain field read. -/
def RenderFeature.getOrientedFlatCoordinates (f : RenderFeature V) : List ℚ :=
  f.flatCoordinates_

/-- Geometry accessor: the feature itself (API-compatibility shim). -/
def RenderFeature.getGeometry (f : RenderFeature V) : RenderFeature V :=
  f

/-- Properties accessor: plain field read. -/
def RenderFeature.getProperties (f : RenderFeature V) : List (String × V) :=
  f.properties_

/-- Stride accessor: always 2. -/
def RenderFeature.getStride (_f : RenderFeature V) : ℕ :=
  2

/-- Geometry type accessor: plain field read. -/
def RenderFeature.getType (f : RenderFeature V) : GeometryType :=
  f.type_

/-- Ends accessor: plain field read. -/
def RenderFeature.getEnds (f : RenderFeature V) : EndsDesc :=
  f.ends_

/-- Endss accessor: alias of getEnds. -/
def RenderFeature.getEndss (f : RenderFeature V) : EndsDesc :=
  f.ends_

/-- Flat coordinates accessor: alias of getOrientedFlatCoordinates. -/
def RenderFeature.getFlatCoordinates (f : RenderFeature V) : List ℚ :=
  f.flatCoordinates_

/-- Simplified geometry accessor: alias of getGeometry. -/
def RenderFeature.getSimplifiedGeometry (f : RenderFeature V) : RenderFeature V :=
  f

/-- Style-function accessor: the UNDEFINED capability stub. -/
def RenderFeature.getStyleFunction (_f : RenderFeature V) : Option Unit :=
  none

/-- Projection registry lookup (`get` of ol/proj.js); the registry is supplied
as a parameter. -/
def getProjection (reg : String → Option Projection) (p : String) : Option Projection :=
  reg p

/-- Coordinate transform from tile pixel space to projected space: resolves the
source projection, reads its pixel extent and world extent, composes the affine
transform positioned at the world extent's top-left corner with uniform scale
and inverted y-axis, and rewrites the coordinate buffer. An unresolvable source
identifier yields none (the ProjectionNotFoundError path). The destination
argument is accepted but never read, exactly as in the source. No cache slot is
touched. -/
def RenderFeature.transform (reg : String → Option Projection) (f : RenderFeature V)
    (source destination : String) : Option (RenderFeature V) :=
  match getProjection reg source with
  | none => none
  | some src =>
    let pixelExtent := src.extent
    let projectedExtent := src.worldExtent
    let scale := getHeight projectedExtent / getHeight pixelExtent
    let t := composeTransform (projectedExtent.getD 0 0) (projectedExtent.getD 3 0)
      scale (-scale) 0 0
    some { f with
      flatCoordinates_ := transform2D f.flatCoordinates_ 0 f.flatCoordinates_.length 2 t }

/-- Trivial engine instantiation used only for concrete evaluations. -/
def trivEngines : Engines :=
  ⟨fun _ _ _ _ _ => [], fun _ _ _ _ _ _ => [], fun _ _ _ _ _ => [], fun _ _ _ _ => []⟩

/-- Uniform scale factor of the transform for a resolved source projection. -/
def scaleOf (p : Projection) : ℚ :=
  getHeight p.worldExtent / getHeight p.extent

/-- Affine map stated the way the spec words it: x is scaled by s and shifted to
the world extent's minimum x, y is scaled by -s and shifted to the world
extent's maximum y. Used to compare the transform against the spec. -/
def specAffineMap (p : Projection) (q : ℚ × ℚ) : ℚ × ℚ :=
  (scaleOf p * q.1 + p.worldExtent.getD 0 0,
   -scaleOf p * q.2 + p.worldExtent.getD 3 0)

lemma bufSlice_zero_length (l : List ℚ) : bufSlice l 0 l.length = l := by
  simp [bufSlice]

lemma foldl_extendPair (l : List (ℚ × ℚ)) (a b c d : ℚ) :
    l.foldl extendPair (a, b, c, d) =
      ((l.map Prod.fst).foldl min a, (l.map Prod.snd).foldl min b,
       (l.map Prod.fst).foldl max c, (l.map Prod.snd).foldl max d) := by
  induction l generalizing a b c d with
  | nil => rfl
  | cons p rest ih => simp [extendPair, ih]

lemma foldl_min_le_init (l : List ℚ) (a : ℚ) : l.foldl min a ≤ a := by
  induction l generalizing a with
  | nil => simp
  | cons x rest ih => exact le_trans (ih (min a x)) (min_le_left a x)

lemma foldl_min_le_mem (l : List ℚ) (a x : ℚ) (hx : x ∈ l) : l.foldl min a ≤ x := by
  induction l generalizing a with
  | nil => cases hx
  | cons y rest ih =>
    rcases List.mem_cons.mp hx with h | h
    · subst h
      exact le_trans (foldl_min_le_init rest (min a x)) (min_le_right a x)
    · exact ih (min a y) h

lemma foldl_min_attained (l : List ℚ) (a : ℚ) :
    l.foldl min a = a ∨ l.foldl min a ∈ l := by
  induction l generalizing a with
  | nil => exact Or.inl rfl
  | cons x rest ih =>
    rcases ih (min a x) with h | h
    · rcases min_cases a x with ⟨he, _⟩ | ⟨he, _⟩
      · exact Or.inl (by simpa [he] using h)
      · exact Or.inr (by rw [List.foldl_cons, h, he]; exact List.mem_cons_self x rest)
    · exact Or.inr (List.mem_cons_of_mem x h)

lemma foldl_max_ge_init (l : List ℚ) (a : ℚ) : a ≤ l.foldl max a := by
  induction l generalizing a with
  | nil => simp
  | cons x rest ih => exact le_trans (le_max_left a x) (ih (max a x))

lemma foldl_max_ge_mem (l : List ℚ) (a x : ℚ) (hx : x ∈ l) : x ≤ l.foldl max a := by
  induction l generalizing a with
  | nil => cases hx
  | cons y rest ih =>
    rcases List.mem_cons.mp hx with h | h
    · subst h
      exact le_trans (le_max_right a x) (foldl_max_ge_init rest (max a x))
    · exact ih (max a y) h

lemma foldl_max_attained (l : List ℚ) (a : ℚ) :
    l.foldl max a = a ∨ l.foldl max a ∈ l := by
  induction l generalizing a with
  | nil => exact Or.inl rfl
  | cons x rest ih =>
    rcases ih (max a x) with h | h
    · rcases max_cases a x with ⟨he, _⟩ | ⟨he, _⟩
      · exact Or.inl (by simpa [he] using h)
      · exact Or.inr (by rw [List.foldl_cons, h, he]; exact List.mem_cons_self x rest)
    · exact Or.inr (List.mem_cons_of_mem x h)

lemma flatMidpointsLoop_eq (E : Engines) (coords : List ℚ) (offset : ℕ) (ends : List ℕ) :
    flatMidpointsLoop E coords offset ends =
      ((List.zip (offset :: ends) ends).map
        (fun oe => E.interpolatePoint coords oe.1 oe.2 2 (1 / 2))).flatten := by
  induction ends generalizing offset with
  | nil => rfl
  | cons e rest ih => simp [flatMidpointsLoop, ih]

/-- Unfolding of the transform at a resolvable source projection: the buffer is
rewritten pairwise by the spec's affine map, and nothing else changes. -/
lemma transform_eq (reg : String → Option Projection) (f : RenderFeature V)
    (s d : String) (p : Projection) (hp : reg s = some p) :
    f.transform reg s d = some { f with
      flatCoordinates_ := ((coordPairs f.flatCoordinates_).map
        (fun q => [(specAffineMap p q).1, (specAffineMap p q).2])).flatten } := by
  simp only [RenderFeature.transform, getProjection, hp]
  congr 1
  simp [transform2D, bufSlice_zero_length, applyAffine, composeTransform,
    specAffineMap, scaleOf]

/-- Pairs of a buffer built by flattening two-element lists recover the mapped
pairs; used for composing two transforms. -/
lemma coordPairs_flatten_map (g : ℚ × ℚ → ℚ × ℚ) (l : List (ℚ × ℚ)) :
    coordPairs ((l.map (fun q => [(g q).1, (g q).2])).flatten) = l.map g := by
  induction l with
  | nil => rfl
  | cons q rest ih => simp [coordPairs, ih]

lemma lookup_eq_none_of_forall {W : Type} (l : List (String × W)) (key : String)
    (h : ∀ p ∈ l, p.1 ≠ key) : l.lookup key = none := by
  induction l with
  | nil => rfl
  | cons a rest ih =>
    have ha : a.1 ≠ key := h a (List.mem_cons_self a rest)
    have hk : (key == a.1) = false := beq_eq_false_iff_ne.mpr fun he => ha he.symm
    simp only [List.lookup, hk]
    exact ih fun p hp => h p (List.mem_cons_of_mem a hp)

lemma lookup_eq_some_of_mem {W : Type} (l : List (String × W)) (key : String) (v : W)
    (hmem : (key, v) ∈ l) (hnd : (l.map Prod.fst).Nodup) : l.lookup key = some v := by
  induction l with
  | nil => cases hmem
  | cons a rest ih =>
    rcases List.mem_cons.mp hmem with h | h
    · simp [List.lookup, ← h]
    · have hk : key ∈ rest.map Prod.fst :=
        List.mem_map.mpr ⟨(key, v), h, rfl⟩
      have ha : a.1 ≠ key := by
        intro he
        exact (List.nodup_cons.mp (by simpa using hnd)).1 (he ▸ hk)
      have hkb : (key == a.1) = false := beq_eq_false_iff_ne.mpr fun he => ha he.symm
      simp only [List.lookup, hkb]
      exact ih h (List.nodup_cons.mp (by simpa using hnd)).2

/-- C3: calling any derived-geometry accessor (getExtent, getFlatInteriorPoint,
getFlatInteriorPoints, getFlatMidpoint, getFlatMidpoints) twice without an
intervening transform returns the identical cached value both times: the second
call is a pure cache hit that returns the same value and leaves the state
untouched, and on a feature whose slot is unset the first call sets the slot to
exactly the returned value, so the slot transitions Unset to Set exactly once. -/
theorem c3_accessors_idempotent_cached (E : Engines) (f : RenderFeature V) :
    (f.getExtent.2.getExtent = f.getExtent ∧
      (f.extent_ = none → f.getExtent.2.extent_ = some f.getExtent.1)) ∧
    ((f.getFlatInteriorPoint E).2.getFlatInteriorPoint E = f.getFlatInteriorPoint E ∧
      (f.flatInteriorPoints_ = none →
        (f.getFlatInteriorPoint E).2.flatInteriorPoints_ =
          some (f.getFlatInteriorPoint E).1)) ∧
    ((f.getFlatInteriorPoints E).2.getFlatInteriorPoints E = f.getFlatInteriorPoints E ∧
      (f.flatInteriorPoints_ = none →
        (f.getFlatInteriorPoints E).2.flatInteriorPoints_ =
          some (f.getFlatInteriorPoints E).1)) ∧
    ((f.getFlatMidpoint E).2.getFlatMidpoint E = f.getFlatMidpoint E ∧
      (f.flatMidpoints_ = none →
        (f.getFlatMidpoint E).2.flatMidpoints_ = some (f.getFlatMidpoint E).1)) ∧
    ((f.getFlatMidpoints E).2.getFlatMidpoints E = f.getFlatMidpoints E ∧
      (f.flatMidpoints_ = none →
        (f.getFlatMidpoints E).2.flatMidpoints_ = some (f.getFlatMidpoints E).1)) := by
  refine ⟨⟨?_, ?_⟩, ⟨?_, ?_⟩, ⟨?_, ?_⟩, ⟨?_, ?_⟩, ⟨?_, ?_⟩⟩ <;>
    first
      | (cases h : f.extent_ <;>
          simp [RenderFeature.getExtent, h])
      | (cases h : f.flatInteriorPoints_ <;>
          simp [RenderFeature.getFlatInteriorPoint, RenderFeature.getFlatInteriorPoints,
            RenderFeature.getExtent, h])
      | (cases h : f.flatMidpoints_ <;>
          simp [RenderFeature.getFlatMidpoint, RenderFeature.getFlatMidpoints, h])

/-- C3 witness: on a concrete fresh feature the extent slot starts unset, the
first call sets it to the returned value, and repeated calls of each accessor
return the identical result with no state change. -/
theorem c3_witness :
    ((mkRenderFeature GeometryType.LINE_STRING [0, 0, 2, 2] (EndsDesc.flat [4])
        ([] : List (String × ℚ)) none).extent_ = none) ∧
    ((mkRenderFeature GeometryType.LINE_STRING [0, 0, 2, 2] (EndsDesc.flat [4])
        ([] : List (String × ℚ)) none).getExtent.2.extent_ =
      some (mkRenderFeature GeometryType.LINE_STRING [0, 0, 2, 2] (EndsDesc.flat [4])
        ([] : List (String × ℚ)) none).getExtent.1) ∧
    ((mkRenderFeature GeometryType.LINE_STRING [0, 0, 2, 2] (EndsDesc.flat [4])
        ([] : List (String × ℚ)) none).getExtent.2.getExtent =
      (mkRenderFeature GeometryType.LINE_STRING [0, 0, 2, 2] (EndsDesc.flat [4])
        ([] : List (String × ℚ)) none).getExtent) :=
  ⟨rfl,
   (c3_accessors_idempotent_cached trivEngines
      (mkRenderFeature GeometryType.LINE_STRING [0, 0, 2, 2] (EndsDesc.flat [4])
        ([] : List (String × ℚ)) none)).1.2 rfl,
   (c3_accessors_idempotent_cached trivEngines
      (mkRenderFeature GeometryType.LINE_STRING [0, 0, 2, 2] (EndsDesc.flat [4])
        ([] : List (String × ℚ)) none)).1.1⟩

/-- C9: getFlatMidpoint and getFlatMidpoints share the flatMidpoints_ cache
slot, and getFlatInteriorPoint and getFlatInteriorPoints share the
flatInteriorPoints_ cache slot: whichever method of a pair runs first fixes the
slot, and the other method of the pair then returns that same stored value and
changes nothing, instead of computing its own result. -/
theorem c9_shared_cache_slots (E : Engines) (f : RenderFeature V) :
    (f.getFlatMidpoint E).2.getFlatMidpoints E = f.getFlatMidpoint E ∧
    (f.getFlatMidpoints E).2.getFlatMidpoint E = f.getFlatMidpoints E ∧
    (f.getFlatInteriorPoint E).2.getFlatInteriorPoints E = f.getFlatInteriorPoint E ∧
    (f.getFlatInteriorPoints E).2.getFlatInteriorPoint E = f.getFlatInteriorPoints E := by
  refine ⟨?_, ?_, ?_, ?_⟩ <;>
    first
      | (cases h : f.flatMidpoints_ <;>
          simp [RenderFeature.getFlatMidpoint, RenderFeature.getFlatMidpoints, h])
      | (cases h : f.flatInteriorPoints_ <;>
          simp [RenderFeature.getFlatInteriorPoint, RenderFeature.getFlatInteriorPoints,
            RenderFeature.getExtent, h])

/-- C4: on a feature with flat ends [e1, ..., en], getFlatMidpoints returns the
concatenation, in ring order, of the fraction-0.5 interpolated point of each
slice [offset, end), the offset being 0 for the first ring and the previous end
thereafter; in particular two rings yield the two per-ring results in order. -/
theorem c4_midpoints_per_ring (E : Engines) (type : GeometryType) (coords : List ℚ)
    (ends : List ℕ) (props : List (String × V)) (id : Option (ℚ ⊕ String)) :
    ((mkRenderFeature type coords (EndsDesc.flat ends) props id).getFlatMidpoints E).1 =
      ((List.zip (0 :: ends) ends).map
        (fun oe => E.interpolatePoint coords oe.1 oe.2 2 (1 / 2))).flatten ∧
    ∀ e1 e2 : ℕ,
      ((mkRenderFeature type coords (EndsDesc.flat [e1, e2]) props id).getFlatMidpoints E).1 =
        E.interpolatePoint coords 0 e1 2 (1 / 2) ++
          E.interpolatePoint coords e1 e2 2 (1 / 2) := by
  constructor
  · simp [RenderFeature.getFlatMidpoints, mkRenderFeature, flatMidpointsLoop_eq]
  · intro e1 e2
    simp [RenderFeature.getFlatMidpoints, mkRenderFeature, flatMidpointsLoop]

/-- C7: property lookup by a key absent from the property mapping returns none
(no fault), and lookup of a present key returns the stored value (keys being
unique in the mapping, as for a JS object). -/
theorem c7_get_lookup (f : RenderFeature V) (key : String) :
    ((∀ p ∈ f.properties_, p.1 ≠ key) → f.get key = none) ∧
    (∀ v : V, (key, v) ∈ f.properties_ →
      (f.properties_.map Prod.fst).Nodup → f.get key = some v) :=
  ⟨fun h => lookup_eq_none_of_forall f.properties_ key h,
   fun v hmem hnd => lookup_eq_some_of_mem f.properties_ key v hmem hnd⟩

/-- C7 witness: on a concrete two-entry property mapping, an absent key yields
none and a present key yields its stored value. -/
theorem c7_witness :
    (mkRenderFeature GeometryType.POINT [0, 0] (EndsDesc.flat [])
        [(("k" : String), (1 : ℚ)), (("m" : String), 2)] none).get ("z") = none ∧
    (mkRenderFeature GeometryType.POINT [0, 0] (EndsDesc.flat [])
        [(("k" : String), (1 : ℚ)), (("m" : String), 2)] none).get ("m") = some 2 :=
  ⟨(c7_get_lookup (mkRenderFeature GeometryType.POINT [0, 0] (EndsDesc.flat [])
        [(("k" : String), (1 : ℚ)), (("m" : String), 2)] none) ("z")).1 (by decide),
   (c7_get_lookup (mkRenderFeature GeometryType.POINT [0, 0] (EndsDesc.flat [])
        [(("k" : String), (1 : ℚ)), (("m" : String), 2)] none) ("m")).2 2
     (by decide) (by decide)⟩

/-- C8: the result of transform does not depend on the destination argument:
with the same resolvable source, any two destination identifiers leave the
feature in the same final state, the scale and translation being derived solely
from the source projection's pixel extent and world extent. -/
theorem c8_destination_ignored (reg : String → Option Projection) (f : RenderFeature V)
    (s d1 d2 : String) (p : Projection) (hp : reg s = some p) :
    ∃ f2, f.transform reg s d1 = some f2 ∧ f.transform reg s d2 = some f2 :=
  ⟨_, transform_eq reg f s d1 p hp, transform_eq reg f s d2 p hp⟩

/-- C8 witness: on a concrete feature and registry, two different destination
identifiers give the same transformed feature. -/
theorem c8_witness :
    ∃ f2, (mkRenderFeature GeometryType.LINE_STRING [1, 0] (EndsDesc.flat [2])
        ([] : List (String × ℚ)) none).transform
          (fun _ => some ⟨[1, 0, 3, 2], [10, 20, 30, 40]⟩) ("src") ("d1") = some f2 ∧
      (mkRenderFeature GeometryType.LINE_STRING [1, 0] (EndsDesc.flat [2])
        ([] : List (String × ℚ)) none).transform
          (fun _ => some ⟨[1, 0, 3, 2], [10, 20, 30, 40]⟩) ("src") ("d2") = some f2 :=
  c8_destination_ignored (fun _ => some ⟨[1, 0, 3, 2], [10, 20, 30, 40]⟩)
    (mkRenderFeature GeometryType.LINE_STRING [1, 0] (EndsDesc.flat [2])
      ([] : List (String × ℚ)) none)
    ("src") ("d1") ("d2") ⟨[1, 0, 3, 2], [10, 20, 30, 40]⟩ rfl

/-- C2: for a non-Point feature with a non-empty even-count buffer, getExtent
returns [minX, minY, maxX, maxY] bounding every (x, y) pair of the buffer at
stride 2, with all four bounds attained by some pair; for a Point feature the
extent is the zero-area box at the single coordinate pair. -/
theorem c2_extent_bounds (type : GeometryType) (coords : List ℚ) (ends : EndsDesc)
    (props : List (String × V)) (id : Option (ℚ ⊕ String)) :
    (type = GeometryType.POINT → ∀ x y : ℚ, coords = [x, y] →
      (mkRenderFeature type coords ends props id).getExtent.1 = [x, y, x, y]) ∧
    (type ≠ GeometryType.POINT → coords ≠ [] → coords.length % 2 = 0 →
      ∃ a b c d : ℚ,
        (mkRenderFeature type coords ends props id).getExtent.1 = [a, b, c, d] ∧
        (∀ p ∈ coordPairs coords, a ≤ p.1 ∧ p.1 ≤ c ∧ b ≤ p.2 ∧ p.2 ≤ d) ∧
        (∃ p ∈ coordPairs coords, p.1 = a) ∧ (∃ p ∈ coordPairs coords, p.1 = c) ∧
        (∃ p ∈ coordPairs coords, p.2 = b) ∧ (∃ p ∈ coordPairs coords, p.2 = d)) := by
  constructor
  · intro ht x y hc
    subst hc
    simp [RenderFeature.getExtent, mkRenderFeature, ht, createOrUpdateFromCoordinate]
  · intro ht hne hev
    obtain ⟨x, y, rest, rfl⟩ : ∃ x y rest, coords = x :: y :: rest := by
      match coords with
      | [] => exact absurd rfl hne
      | [x] => simp at hev
      | x :: y :: rest => exact ⟨x, y, rest, rfl⟩
    have hget : (mkRenderFeature type (x :: y :: rest) ends props id).getExtent.1 =
        createOrUpdateFromFlatCoordinates (x :: y :: rest) 0 (x :: y :: rest).length 2 := by
      simp [RenderFeature.getExtent, mkRenderFeature, ht]
    have hcp : coordPairs (x :: y :: rest) = (x, y) :: coordPairs rest := rfl
    refine ⟨((coordPairs rest).map Prod.fst).foldl min x,
      ((coordPairs rest).map Prod.snd).foldl min y,
      ((coordPairs rest).map Prod.fst).foldl max x,
      ((coordPairs rest).map Prod.snd).foldl max y, ?_, ?_, ?_, ?_, ?_, ?_⟩
    · rw [hget]
      simp only [createOrUpdateFromFlatCoordinates, bufSlice_zero_length, hcp]
      rw [foldl_extendPair]
    · intro p hp
      rw [hcp] at hp
      rcases List.mem_cons.mp hp with h | h
      · subst h
        exact ⟨foldl_min_le_init _ x, foldl_max_ge_init _ x,
          foldl_min_le_init _ y, foldl_max_ge_init _ y⟩
      · exact ⟨foldl_min_le_mem _ x p.1 (List.mem_map.mpr ⟨p, h, rfl⟩),
          foldl_max_ge_mem _ x p.1 (List.mem_map.mpr ⟨p, h, rfl⟩),
          foldl_min_le_mem _ y p.2 (List.mem_map.mpr ⟨p, h, rfl⟩),
          foldl_max_ge_mem _ y p.2 (List.mem_map.mpr ⟨p, h, rfl⟩)⟩
    · rcases foldl_min_attained ((coordPairs rest).map Prod.fst) x with h | h
      · exact ⟨(x, y), by rw [hcp]; exact List.mem_cons_self _ _, h.symm ▸ rfl⟩
      · rcases List.mem_map.mp h with ⟨p, hp, hpe⟩
        exact ⟨p, by rw [hcp]; exact List.mem_cons_of_mem _ hp, hpe⟩
    · rcases foldl_max_attained ((coordPairs rest).map Prod.fst) x with h | h
      · exact ⟨(x, y), by rw [hcp]; exact List.mem_cons_self _ _, h.symm ▸ rfl⟩
      · rcases List.mem_map.mp h with ⟨p, hp, hpe⟩
        exact ⟨p, by rw [hcp]; exact List.mem_cons_of_mem _ hp, hpe⟩
    · rcases foldl_min_attained ((coordPairs rest).map Prod.snd) y with h | h
      · exact ⟨(x, y), by rw [hcp]; exact List.mem_cons_self _ _, h.symm ▸ rfl⟩
      · rcases List.mem_map.mp h with ⟨p, hp, hpe⟩
        exact ⟨p, by rw [hcp]; exact List.mem_cons_of_mem _ hp, hpe⟩
    · rcases foldl_max_attained ((coordPairs rest).map Prod.snd) y with h | h
      · exact ⟨(x, y), by rw [hcp]; exact List.mem_cons_self _ _, h.symm ▸ rfl⟩
      · rcases List.mem_map.mp h with ⟨p, hp, hpe⟩
        exact ⟨p, by rw [hcp]; exact List.mem_cons_of_mem _ hp, hpe⟩

/-- C2 witness: the Point case at buffer [5, 7] and the general case at the
concrete buffer [0, 3, 2, 1]. -/
theorem c2_witness :
    (mkRenderFeature GeometryType.POINT [5, 7] (EndsDesc.flat [])
        ([] : List (String × ℚ)) none).getExtent.1 = [5, 7, 5, 7] ∧
    (∃ a b c d : ℚ,
      (mkRenderFeature GeometryType.LINE_STRING [0, 3, 2, 1] (EndsDesc.flat [4])
          ([] : List (String × ℚ)) none).getExtent.1 = [a, b, c, d] ∧
      (∀ p ∈ coordPairs [0, 3, 2, 1], a ≤ p.1 ∧ p.1 ≤ c ∧ b ≤ p.2 ∧ p.2 ≤ d) ∧
      (∃ p ∈ coordPairs [0, 3, 2, 1], p.1 = a) ∧
      (∃ p ∈ coordPairs [0, 3, 2, 1], p.1 = c) ∧
      (∃ p ∈ coordPairs [0, 3, 2, 1], p.2 = b) ∧
      (∃ p ∈ coordPairs [0, 3, 2, 1], p.2 = d)) :=
  ⟨(c2_extent_bounds GeometryType.POINT [5, 7] (EndsDesc.flat [])
      ([] : List (String × ℚ)) none).1 rfl 5 7 rfl,
   (c2_extent_bounds GeometryType.LINE_STRING [0, 3, 2, 1] (EndsDesc.flat [4])
      ([] : List (String × ℚ)) none).2 (by decide) (by decide) (by decide)⟩

/-- Concrete projection with pixel extent [0, 0, 2, 2] and world extent
[0, 0, 4, 4]; the scale factor is 2 and the pixel origin is the top-left. -/
def pxProjA : Projection :=
  ⟨[0, 0, 2, 2], [0, 0, 4, 4]⟩

/-- Registry resolving every identifier to pxProjA. -/
def regA : String → Option Projection :=
  fun _ => some pxProjA

/-- Concrete line feature on the buffer [0, 0, 2, 2]. -/
def fA : RenderFeature ℚ :=
  mkRenderFeature GeometryType.LINE_STRING [0, 0, 2, 2] (EndsDesc.flat [4]) [] none

/-- Concrete projection with pixel extent [1, 0, 3, 2] (top-left corner (1, 0),
not the origin) and world extent [10, 20, 30, 40]; the scale factor is 10. -/
def pxProjB : Projection :=
  ⟨[1, 0, 3, 2], [10, 20, 30, 40]⟩

/-- Registry resolving every identifier to pxProjB. -/
def regB : String → Option Projection :=
  fun _ => some pxProjB

/-- Concrete one-point line feature sitting at pxProjB's pixel top-left corner. -/
def fB : RenderFeature ℚ :=
  mkRenderFeature GeometryType.LINE_STRING [1, 0] (EndsDesc.flat [2]) [] none

/-- Concrete square polygon feature over the ring (0,0) (4,0) (4,4) (0,4) (0,0). -/
def fPoly : RenderFeature ℚ :=
  mkRenderFeature GeometryType.POLYGON [0, 0, 4, 0, 4, 4, 0, 4, 0, 0]
    (EndsDesc.flat [10]) [] none

/-- C1 counterexample: on the concrete feature fA, getExtent caches [0, 0, 2, 2];
after transform (which rewrites the buffer to [0, 4, 4, 0]) a second getExtent
still returns the stale pre-transform extent [0, 0, 2, 2], while the extent
recomputed from the post-transform coordinates is [0, 0, 4, 4]. The transform
operation does not invalidate previously cached derived values. -/
theorem c1_counterexample :
    ((fA.getExtent.2.transform regA ("a") ("b")).map
        (fun g => (g.getExtent.1,
          createOrUpdateFromFlatCoordinates g.flatCoordinates_ 0
            g.flatCoordinates_.length 2)) =
      some ([0, 0, 2, 2], [0, 0, 4, 4])) ∧
    ([0, 0, 2, (2 : ℚ)] ≠ [0, 0, 4, 4]) := by
  constructor
  · norm_num [fA, mkRenderFeature, RenderFeature.getExtent, RenderFeature.transform,
      getProjection, regA, pxProjA, transform2D, bufSlice, coordPairs, applyAffine,
      composeTransform, getHeight, createOrUpdateFromFlatCoordinates, extendPair]
    exact fun h => nomatch h
  · norm_num

/-- C1 amended: transform carries all three derived-geometry cache slots over
unchanged (no invalidation); an extent cached before the transform is returned
as is by a later getExtent call, and only when no extent was cached is the
extent computed from the post-transform coordinates. -/
theorem c1_transform_keeps_caches (reg : String → Option Projection)
    (f : RenderFeature V) (s d : String) (f2 : RenderFeature V)
    (h : f.transform reg s d = some f2) :
    f2.extent_ = f.extent_ ∧ f2.flatInteriorPoints_ = f.flatInteriorPoints_ ∧
    f2.flatMidpoints_ = f.flatMidpoints_ ∧
    (∀ e, f.extent_ = some e → f2.getExtent = (e, f2)) ∧
    (f.extent_ = none → f2.getExtent.1 =
      (if f2.type_ = GeometryType.POINT then
        createOrUpdateFromCoordinate f2.flatCoordinates_
      else
        createOrUpdateFromFlatCoordinates f2.flatCoordinates_ 0
          f2.flatCoordinates_.length 2)) := by
  cases hr : reg s with
  | none => simp [RenderFeature.transform, getProjection, hr] at h
  | some p =>
    rw [transform_eq reg f s d p hr] at h
    obtain rfl : f2 = { f with
        flatCoordinates_ := ((coordPairs f.flatCoordinates_).map
          (fun q => [(specAffineMap p q).1, (specAffineMap p q).2])).flatten } :=
      (Option.some.injEq _ _ ▸ h).symm
    refine ⟨rfl, rfl, rfl, ?_, ?_⟩
    · intro e he
      simp [RenderFeature.getExtent, he]
    · intro he
      simp [RenderFeature.getExtent, he]

/-- C1 witness: applying the amended theorem at the concrete feature fA with a
cached extent: the transformed feature keeps the pre-transform cache slots and
getExtent returns the stale cached extent. -/
theorem c1_witness :
    (fA.getExtent.2.transform regA ("a") ("b") =
      some ⟨GeometryType.LINE_STRING, [0, 4, 4, 0], EndsDesc.flat [4], [], none,
        some [0, 0, 2, 2], none, none⟩) ∧
    ((⟨GeometryType.LINE_STRING, [0, 4, 4, 0], EndsDesc.flat [4], [], none,
        some [0, 0, 2, 2], none, none⟩ : RenderFeature ℚ).extent_ =
      fA.getExtent.2.extent_ ∧
     (⟨GeometryType.LINE_STRING, [0, 4, 4, 0], EndsDesc.flat [4], [], none,
        some [0, 0, 2, 2], none, none⟩ : RenderFeature ℚ).getExtent =
      ([0, 0, 2, 2],
        ⟨GeometryType.LINE_STRING, [0, 4, 4, 0], EndsDesc.flat [4], [], none,
          some [0, 0, 2, 2], none, none⟩)) := by
  have ht : fA.getExtent.2.transform regA ("a") ("b") =
      some ⟨GeometryType.LINE_STRING, [0, 4, 4, 0], EndsDesc.flat [4], [], none,
        some [0, 0, 2, 2], none, none⟩ := by
    norm_num [fA, mkRenderFeature, RenderFeature.getExtent, RenderFeature.transform,
      getProjection, regA, pxProjA, transform2D, bufSlice, coordPairs, applyAffine,
      composeTransform, getHeight, createOrUpdateFromFlatCoordinates, extendPair]
    exact fun h => nomatch h
  have hc := c1_transform_keeps_caches regA fA.getExtent.2 ("a") ("b")
    ⟨GeometryType.LINE_STRING, [0, 4, 4, 0], EndsDesc.flat [4], [], none,
      some [0, 0, 2, 2], none, none⟩ ht
  exact ⟨ht, hc.1, hc.2.2.2.1 [0, 0, 2, 2] (by
    norm_num [fA, mkRenderFeature, RenderFeature.getExtent,
      createOrUpdateFromFlatCoordinates, bufSlice, coordPairs, extendPair]
    exact fun h => nomatch h)⟩

/-- C5 counterexample: with source pixel extent [1, 0, 3, 2] and world extent
[10, 20, 30, 40] (every identifier resolving to that projection), the feature
holding exactly the pixel top-left corner (1, 0) is transformed to (20, 40),
not to the world extent's top-left corner (10, 40): the top-left-to-top-left
correspondence of the claim fails when the pixel top-left is not the origin. -/
theorem c5_counterexample :
    ((fB.transform regB ("a") ("b")).map (fun g => g.flatCoordinates_) =
      some [20, 40]) ∧
    ([20, (40 : ℚ)] ≠ [10, 40]) := by
  constructor
  · norm_num [fB, mkRenderFeature, RenderFeature.transform, getProjection, regB,
      pxProjB, transform2D, bufSlice, coordPairs, applyAffine, composeTransform,
      getHeight]
  · norm_num

/-- C5 amended: transform applies to every coordinate pair the affine map
x' = s*x + worldMinX, y' = -s*y + worldMaxY with s the world-extent height over
the pixel-extent height, all four quantities read from the resolved source
projection (whose world extent is expected to equal the destination's, the two
sharing the SRS); and the source pixel extent's top-left corner maps exactly to
the world extent's top-left corner when that pixel corner is the origin (0, 0),
as it is for tile pixel extents. -/
theorem c5_transform_affine (reg : String → Option Projection) (f : RenderFeature V)
    (s d : String) (p : Projection) (hp : reg s = some p) :
    (f.transform reg s d = some { f with
      flatCoordinates_ := ((coordPairs f.flatCoordinates_).map
        (fun q => [(specAffineMap p q).1, (specAffineMap p q).2])).flatten }) ∧
    (p.extent.getD 0 0 = 0 → p.extent.getD 1 0 = 0 →
      specAffineMap p (p.extent.getD 0 0, p.extent.getD 1 0) =
        (p.worldExtent.getD 0 0, p.worldExtent.getD 3 0)) := by
  refine ⟨transform_eq reg f s d p hp, ?_⟩
  intro h0 h1
  rw [h0, h1]
  simp [specAffineMap]

/-- C5 witness: applying the amended theorem at the concrete feature fA and the
projection pxProjA, whose pixel top-left corner is the origin. -/
theorem c5_witness :
    (fA.transform regA ("a") ("b") = some { fA with
      flatCoordinates_ := ((coordPairs fA.flatCoordinates_).map
        (fun q => [(specAffineMap pxProjA q).1, (specAffineMap pxProjA q).2])).flatten }) ∧
    (specAffineMap pxProjA (pxProjA.extent.getD 0 0, pxProjA.extent.getD 1 0) =
      (pxProjA.worldExtent.getD 0 0, pxProjA.worldExtent.getD 3 0)) :=
  ⟨(c5_transform_affine regA fA ("a") ("b") pxProjA rfl).1,
   (c5_transform_affine regA fA ("a") ("b") pxProjA rfl).2 rfl rfl⟩

/-- C6: a second transform call applies the affine map to the already mutated
buffer, so after two calls the buffer is the affine map composed with itself
applied to the original coordinates; nothing guards against double
application. -/
theorem c6_double_transform (reg : String → Option Projection) (f : RenderFeature V)
    (s d : String) (p : Projection) (hp : reg s = some p) :
    ∃ f1 f2, f.transform reg s d = some f1 ∧ f1.transform reg s d = some f2 ∧
      f2.flatCoordinates_ = ((coordPairs f.flatCoordinates_).map
        (fun q => [(specAffineMap p (specAffineMap p q)).1,
                   (specAffineMap p (specAffineMap p q)).2])).flatten := by
  refine ⟨_, _, transform_eq reg f s d p hp, transform_eq reg _ s d p hp, ?_⟩
  simp only [coordPairs_flatten_map, List.map_map, Function.comp_def]

/-- C6 witness: applying the double-transform theorem at the concrete feature
fB and registry regB. -/
theorem c6_witness :
    ∃ f1 f2, fB.transform regB ("a") ("b") = some f1 ∧
      f1.transform regB ("a") ("b") = some f2 ∧
      f2.flatCoordinates_ = ((coordPairs fB.flatCoordinates_).map
        (fun q => [(specAffineMap pxProjB (specAffineMap pxProjB q)).1,
                   (specAffineMap pxProjB (specAffineMap pxProjB q)).2])).flatten :=
  c6_double_transform regB fB ("a") ("b") pxProjB rfl

/-- Core immutable fields of a feature: geometry type, coordinate buffer, ends
descriptor, property mapping and identifier. -/
def coreFields (f : RenderFeature V) :
    GeometryType × List ℚ × EndsDesc × List (String × V) × Option (ℚ ⊕ String) :=
  (f.type_, f.flatCoordinates_, f.ends_, f.properties_, f.id_)

/-- C10 counterexample: on the concrete fresh polygon feature fPoly, a call of
getFlatInteriorPoint (whose own cache slot is flatInteriorPoints_) also
populates the extent_ cache slot, because it obtains the seed center through an
internal getExtent call: an accessor modifies a cache slot that is not its
own. -/
theorem c10_counterexample :
    fPoly.extent_ = none ∧
    (fPoly.getFlatInteriorPoint trivEngines).2.extent_ = some [0, 0, 4, 4] := by
  constructor
  · rfl
  · norm_num [fPoly, mkRenderFeature, RenderFeature.getFlatInteriorPoint,
      RenderFeature.getExtent, createOrUpdateFromFlatCoordinates, bufSlice,
      coordPairs, extendPair, getCenter, trivEngines]
    exact fun h => nomatch h

/-- C10 amended: every caching accessor leaves the geometry type, coordinate
buffer, ends, properties and identifier unchanged and modifies only
derived-geometry cache slots: getExtent at most the extent slot,
getFlatInteriorPoint at most the interior-point slot and, through its internal
getExtent call, the extent slot, getFlatInteriorPoints at most the
interior-point slot, and the two midpoint accessors at most the midpoint slot;
the pure getters return plain field reads with no state at all; and transform
mutates only the coordinate buffer, leaving every other field, cache slots
included, unchanged. -/
theorem c10_frame_conditions (E : Engines) (f : RenderFeature V) :
    (coreFields f.getExtent.2 = coreFields f ∧
      f.getExtent.2.flatInteriorPoints_ = f.flatInteriorPoints_ ∧
      f.getExtent.2.flatMidpoints_ = f.flatMidpoints_) ∧
    (coreFields (f.getFlatInteriorPoint E).2 = coreFields f ∧
      (f.getFlatInteriorPoint E).2.flatMidpoints_ = f.flatMidpoints_) ∧
    (coreFields (f.getFlatInteriorPoints E).2 = coreFields f ∧
      (f.getFlatInteriorPoints E).2.extent_ = f.extent_ ∧
      (f.getFlatInteriorPoints E).2.flatMidpoints_ = f.flatMidpoints_) ∧
    (coreFields (f.getFlatMidpoint E).2 = coreFields f ∧
      (f.getFlatMidpoint E).2.extent_ = f.extent_ ∧
      (f.getFlatMidpoint E).2.flatInteriorPoints_ = f.flatInteriorPoints_) ∧
    (coreFields (f.getFlatMidpoints E).2 = coreFields f ∧
      (f.getFlatMidpoints E).2.extent_ = f.extent_ ∧
      (f.getFlatMidpoints E).2.flatInteriorPoints_ = f.flatInteriorPoints_) ∧
    (∀ reg s d f2, f.transform reg s d = some f2 →
      f2.type_ = f.type_ ∧ f2.ends_ = f.ends_ ∧ f2.properties_ = f.properties_ ∧
      f2.id_ = f.id_ ∧ f2.extent_ = f.extent_ ∧
      f2.flatInteriorPoints_ = f.flatInteriorPoints_ ∧
      f2.flatMidpoints_ = f.flatMidpoints_) := by
  refine ⟨?_, ?_, ?_, ?_, ?_, ?_⟩
  · cases h : f.extent_ <;> simp [RenderFeature.getExtent, h, coreFields]
  · cases h : f.flatInteriorPoints_ <;>
      cases he : f.extent_ <;>
        simp [RenderFeature.getFlatInteriorPoint, RenderFeature.getExtent, h, he,
          coreFields]
  · cases h : f.flatInteriorPoints_ <;>
      simp [RenderFeature.getFlatInteriorPoints, h, coreFields]
  · cases h : f.flatMidpoints_ <;> simp [RenderFeature.getFlatMidpoint, h, coreFields]
  · cases h : f.flatMidpoints_ <;> simp [RenderFeature.getFlatMidpoints, h, coreFields]
  · intro reg s d f2 h
    cases hr : reg s with
    | none => simp [RenderFeature.transform, getProjection, hr] at h
    | some p =>
      rw [transform_eq reg f s d p hr] at h
      obtain rfl : f2 = { f with
          flatCoordinates_ := ((coordPairs f.flatCoordinates_).map
            (fun q => [(specAffineMap p q).1, (specAffineMap p q).2])).flatten } :=
        (Option.some.injEq _ _ ▸ h).symm
      exact ⟨rfl, rfl, rfl, rfl, rfl, rfl, rfl⟩

/-- C10 witness: applying the frame theorem at the concrete feature fA, with
the transform clause discharged at the registry regA. -/
theorem c10_witness :
    (coreFields fA.getExtent.2 = coreFields fA ∧
      fA.getExtent.2.flatInteriorPoints_ = fA.flatInteriorPoints_ ∧
      fA.getExtent.2.flatMidpoints_ = fA.flatMidpoints_) ∧
    ((⟨GeometryType.LINE_STRING, [0, 4, 4, 0], EndsDesc.flat [4], [], none,
        none, none, none⟩ : RenderFeature ℚ).extent_ = fA.extent_ ∧
      (⟨GeometryType.LINE_STRING, [0, 4, 4, 0], EndsDesc.flat [4], [], none,
        none, none, none⟩ : RenderFeature ℚ).flatMidpoints_ = fA.flatMidpoints_) := by
  have ht : fA.transform regA ("a") ("b") =
      some ⟨GeometryType.LINE_STRING, [0, 4, 4, 0], EndsDesc.flat [4], [], none,
        none, none, none⟩ := by
    norm_num [fA, mkRenderFeature, RenderFeature.transform, getProjection, regA,
      pxProjA, transform2D, bufSlice, coordPairs, applyAffine, composeTransform,
      getHeight]
  have hc := c10_frame_conditions trivEngines fA
  have hcl := hc.2.2.2.2.2 regA ("a") ("b")
    ⟨GeometryType.LINE_STRING, [0, 4, 4, 0], EndsDesc.flat [4], [], none,
      none, none, none⟩ ht
  exact ⟨hc.1, hcl.2.2.2.2.1, hcl.2.2.2.2.2.2⟩

end OLRF
